import Mathlib

/-!
Shallow embedding of the core pure logic of `src/bot/verman2.py`
(a Playwright-based chapter downloader).  Strings are modelled as `List Char`
(Python `str`), byte strings as `List Nat` (Python `bytes`).  Only the ASCII
fragment of Python's text handling is modelled; every input exercised by the
program (URLs, chat commands, HTTP headers) lives in that fragment.
-/

namespace Verman2

/-! ### Character helpers (ASCII fragment of Python's `str` methods) -/

/-- Python whitespace characters stripped by `str.strip()` (ASCII ones). -/
def isAsciiSpace (c : Char) : Bool :=
  c == ' ' || c == '\t' || c == '\n' || c == '\r' ||
  c == '\x0b' || c == '\x0c'

/-- `str.strip()`: drop whitespace from both ends. -/
def pyStrip (s : List Char) : List Char :=
  ((s.dropWhile isAsciiSpace).reverse.dropWhile isAsciiSpace).reverse

/-- ASCII lower-casing of one character, as done by `str.lower()` on ASCII. -/
def lowerChar (c : Char) : Char :=
  if 65 ≤ c.toNat ∧ c.toNat ≤ 90 then Char.ofNat (c.toNat + 32) else c

/-- `str.lower()` (ASCII fragment). -/
def pyLower (s : List Char) : List Char := s.map lowerChar

/-- ASCII decimal digit. -/
def isDigitChar (c : Char) : Bool :=
  decide (48 ≤ c.toNat ∧ c.toNat ≤ 57)

/-- ASCII letter. -/
def isAlphaChar (c : Char) : Bool :=
  decide ((65 ≤ c.toNat ∧ c.toNat ≤ 90) ∨ (97 ≤ c.toNat ∧ c.toNat ≤ 122))

/-- Does the list start with the given pattern? -/
def listStartsWith {α : Type} [DecidableEq α] : List α → List α → Bool
  | [], _ => true
  | _ :: _, [] => false
  | p :: ps, x :: xs => if p = x then listStartsWith ps xs else false

/-- Is `pat` a contiguous sublist of the second argument? (Python `in`). -/
def containsSub {α : Type} [DecidableEq α] (pat : List α) : List α → Bool
  | [] => pat.isEmpty
  | c :: rest => listStartsWith pat (c :: rest) || containsSub pat rest

/-! ### Model of `urllib.parse.urlsplit` (the fragment used by the program)

`urlsplit` extracts, in this order: the scheme (text before the first `:`
when it starts with a letter and uses only scheme characters), the netloc
(after a leading `//`, up to the first `/`, `?` or `#`), the fragment
(after the first `#`), and the query (after the first `?`). -/

structure UrlParts where
  scheme : List Char
  netloc : List Char
  path : List Char
  query : List Char
  fragment : List Char
deriving DecidableEq, Repr

/-- Characters allowed in a URL scheme (Python `scheme_chars`). -/
def isSchemeChar (c : Char) : Bool :=
  decide ((48 ≤ c.toNat ∧ c.toNat ≤ 57) ∨ (65 ≤ c.toNat ∧ c.toNat ≤ 90) ∨
    (97 ≤ c.toNat ∧ c.toNat ≤ 122) ∨ c.toNat = 43 ∨ c.toNat = 45 ∨ c.toNat = 46)

/-- Scheme extraction step of `urlsplit`: returns `(scheme, remainder)`.
`pre` is the text before the first `:` (all of `u` when there is none) and
`post` starts at that `:`; the scheme is split off exactly when a `:`
exists at a positive position (`post ≠ []`, `pre ≠ []`), the first
character is a letter, and `pre` has only scheme characters. -/
def splitScheme (u : List Char) : List Char × List Char :=
  let pre := u.takeWhile (fun x => x ≠ ':')
  let post := u.dropWhile (fun x => x ≠ ':')
  if pre ≠ [] ∧ post ≠ [] ∧ isAlphaChar (pre.headD ' ') ∧ pre.all isSchemeChar
  then (pyLower pre, post.tail)
  else ([], u)

/-- Delimiters ending the netloc portion. -/
def isNetlocDelim (c : Char) : Bool := c == '/' || c == '?' || c == '#'

/-- Netloc extraction step of `urlsplit`: returns `(netloc, remainder)`. -/
def splitNetloc (u : List Char) : List Char × List Char :=
  match u with
  | '/' :: '/' :: rest =>
    (rest.takeWhile (fun c => !isNetlocDelim c),
     rest.dropWhile (fun c => !isNetlocDelim c))
  | _ => ([], u)

/-- Python `s.split(d, 1)`: the part before the first `d` and the part after
(the whole string and `[]` when `d` is absent). -/
def splitOnceAt (d : Char) (u : List Char) : List Char × List Char :=
  let after := u.dropWhile (fun x => x ≠ d)
  if after = [] then (u, []) else (u.takeWhile (fun x => x ≠ d), after.tail)

/-- Model of `urllib.parse.urlparse` restricted to the fields the program
reads (`params` splitting is irrelevant: the program never reads `params`). -/
def urlparse (u : List Char) : UrlParts :=
  let sr := splitScheme u
  let nr := splitNetloc sr.2
  let fa := splitOnceAt '#' nr.2
  let pq := splitOnceAt '?' fa.1
  ⟨sr.1, nr.1, pq.1, pq.2, fa.2⟩

/-- String literal helpers (named so literals appear in one place). -/
def sepSlashes : List Char := [':', '/', '/']

/-- `normalize_key` from the source: `f"{p.scheme}://{p.netloc}{p.path}"`
for non-empty input, the input itself when empty. -/
def normalize_key (u : List Char) : List Char :=
  if u = [] then u
  else
    let p := urlparse u
    p.scheme ++ sepSlashes ++ p.netloc ++ p.path

/-! ### `parse_sequence_input` and chapter tokens -/

/-- `is_chapter_token`: non-empty and matching `\d+(?:\.\d+)?` in full. -/
def is_chapter_token (t : List Char) : Bool :=
  (!(t.takeWhile isDigitChar).isEmpty) &&
    (match t.dropWhile isDigitChar with
     | [] => true
     | '.' :: tl => !tl.isEmpty && tl.all isDigitChar
     | _ => false)

/-- Separators of the token split `re.split(r"[,\s]+", s)`. -/
def isSepChar (c : Char) : Bool := c == ',' || isAsciiSpace c

/-- Split into the maximal runs of non-separator characters.  This equals
`re.split(r"[,\s]+", s)` up to empty pieces at the two ends, which the
caller's `is_chapter_token` filter drops anyway. -/
def splitTokens : List Char → List (List Char)
  | [] => []
  | c :: rest =>
    let ws := splitTokens rest
    if isSepChar c then ws
    else
      match rest, ws with
      | [], _ => [[c]]
      | r :: _, w :: tl => if isSepChar r then [c] :: ws else (c :: w) :: tl
      | _ :: _, [] => [[c]]

/-- Decimal value of a digit string (Python `int` on digits). -/
def digitsToNat (ds : List Char) : Nat :=
  ds.foldl (fun n c => n * 10 + (c.toNat - 48)) 0

/-- Decimal digits of `n`, most significant first (fuelled helper). -/
def natDecAux : Nat → Nat → List Char
  | 0, _ => []
  | fuel + 1, n =>
    if n = 0 then []
    else natDecAux fuel (n / 10) ++ [Char.ofNat (48 + n % 10)]

/-- Python `str(n)` for a natural number. -/
def natToDec (n : Nat) : List Char :=
  if n = 0 then ['0'] else natDecAux (n + 1) n

/-- `\d+$`: the whole remainder is a non-empty digit run. -/
def tailDigits (r : List Char) : Option Nat :=
  if r ≠ [] ∧ r.all isDigitChar then some (digitsToNat r) else none

/-- Consume a literal keyword; `some remainder` on success. -/
def dropKeyword : List Char → List Char → Option (List Char)
  | [], s => some s
  | _ :: _, [] => none
  | k :: ks, c :: cs => if c = k then dropKeyword ks cs else none

/-- The separator-then-digits tail of the `(?:siguientes|next)\s*[: ]\s*(\d+)$`
branch.  The regex separator `\s*[: ]\s*` is `ws* [: ] ws*` with one literal
`:` or `' '` in the middle, so it matches exactly: either optional whitespace
around a single `:`, or a whitespace run containing at least one literal
space character (a tab/newline-only run has no `[: ]` character and does
not match). -/
def sepThenDigits (r : List Char) : Option Nat :=
  let w1 := r.takeWhile isAsciiSpace
  match r.dropWhile isAsciiSpace with
  | ':' :: r2 => tailDigits (r2.dropWhile isAsciiSpace)
  | r1 => if ' ' ∈ w1 then tailDigits r1 else none

def kwSiguientes : List Char := "siguientes".toList
def kwNext : List Char := "next".toList

/-- Model of `re.match(r"^((?:siguientes|next)\s*[: ]\s*(\d+)|\+(\d+))$", s)`
on the stripped, lower-cased input; returns the captured number. -/
def matchNextN (t : List Char) : Option Nat :=
  match t with
  | '+' :: ds => tailDigits ds
  | _ =>
    match dropKeyword kwSiguientes t with
    | some r => sepThenDigits r
    | none =>
      match dropKeyword kwNext t with
      | some r => sepThenDigits r
      | none => none

def modeSingle : List Char := "single".toList
def modeNextN : List Char := "nextN".toList
def modeList : List Char := "list".toList

/-- `parse_sequence_input` from the source. -/
def parse_sequence_input (seq_input : List Char) (start_url : List Char) :
    List Char × List (List Char) :=
  let s := pyLower (pyStrip seq_input)
  if s = [] then (modeSingle, [start_url])
  else
    match matchNextN s with
    | some n => (modeNextN, [natToDec n])
    | none =>
      let nums := (splitTokens s).filter is_chapter_token
      if nums = [] then (modeSingle, [start_url])
      else (modeList, nums)

/-! ### PDF page counting and validation -/

def PDF_MIN_SIZE_BYTES : Nat := 100000
def PDF_MIN_PAGE_BYTES : Nat := 100000
def PDF_MIN_TOTAL_FOR_MULTI : Nat := 200000
def PDF_MULTI_PAGE_THRESHOLD : Nat := 2

def pdfPageMarkerText : List Char := "/Type /Page".toList
def pdfPagesMarkerText : List Char := "/Type /Pages".toList

/-- The byte pattern `b"/Type /Page"` counted by `pdf_page_count`. -/
def pdfPagePattern : List Nat := pdfPageMarkerText.map Char.toNat

/-- The byte pattern `b"/Type /Pages"` marking a PDF page-tree node. -/
def pdfPagesPattern : List Nat := pdfPagesMarkerText.map Char.toNat

/-- Python `bytes.count(sub)`: non-overlapping occurrences, scanning left to
right (fuelled by the data length, which bounds the number of steps). -/
def countSubFuel {α : Type} [DecidableEq α] (pat : List α) :
    Nat → List α → Nat
  | 0, _ => 0
  | _, [] => 0
  | fuel + 1, x :: xs =>
    if listStartsWith pat (x :: xs) then
      1 + countSubFuel pat fuel (xs.drop (pat.length - 1))
    else countSubFuel pat fuel xs

def countSub {α : Type} [DecidableEq α] (pat data : List α) : Nat :=
  countSubFuel pat data.length data

/-- `pdf_page_count`: count of `b"/Type /Page"` in the file's bytes, `0` when
the file cannot be read (`none` models the swallowed read exception). -/
def pdf_page_count (fileData : Option (List Nat)) : Nat :=
  match fileData with
  | none => 0
  | some data => countSub pdfPagePattern data

/-- `validate_pdf` from the source.  `fileData = none` models an unreadable
path (`stat` raising).  For a readable regular file the `stat` size equals
the byte length of its content. -/
def validate_pdf (fileData : Option (List Nat)) (expected_pages : Option Nat)
    (min_size : Nat) : Bool × Nat × Nat :=
  match fileData with
  | none => (false, 0, 0)
  | some data =>
    let size := data.length
    let pages := pdf_page_count (some data)
    if pages = 0 then (false, pages, size)
    else
      let m1 := max min_size PDF_MIN_SIZE_BYTES
      let m2 := max m1 (pages * PDF_MIN_PAGE_BYTES)
      let m3 :=
        if PDF_MULTI_PAGE_THRESHOLD < pages then max m2 PDF_MIN_TOTAL_FOR_MULTI
        else m2
      if size < m3 then (false, pages, size)
      else
        match expected_pages with
        | some e =>
          if e ≠ 0 ∧ pages < max 1 (e / 2) then (false, pages, size)
          else (true, pages, size)
        | none => (true, pages, size)

/-! ### `dedupe_targets_by_page` -/

/-- Is a target entry kept at all?  The source skips non-positive page
numbers and empty keys. -/
def validTarget (t : Int × List Char) : Bool :=
  decide (0 < t.1) && !t.2.isEmpty

/-- Loop of `dedupe_targets_by_page`, with the `seen` set, the accumulator
and the early `break` on `limit` made explicit. -/
def dedupeAux (limit : Option Nat) :
    List Int → List (Int × List Char) → List (Int × List Char) →
    List (Int × List Char)
  | _, acc, [] => acc
  | seen, acc, (p, k) :: rest =>
    if ¬ validTarget (p, k) then dedupeAux limit seen acc rest
    else if p ∈ seen then dedupeAux limit seen acc rest
    else
      let acc' := acc ++ [(p, k)]
      match limit with
      | some l => if l ≤ acc'.length then acc' else dedupeAux limit (p :: seen) acc' rest
      | none => dedupeAux limit (p :: seen) acc' rest

/-- `dedupe_targets_by_page` from the source. -/
def dedupe_targets_by_page (targets : List (Int × List Char))
    (limit : Option Nat) : List (Int × List Char) :=
  dedupeAux limit [] [] targets

/-! ### `IMG_EXT_RE`, `infer_ext` and the network response cache (`NetCaptor`) -/

def extJpgLit : List Char := "jpg".toList
def extJpegLit : List Char := "jpeg".toList
def extPngLit : List Char := "png".toList
def extWebpLit : List Char := "webp".toList
def extAvifLit : List Char := "avif".toList

/-- The alternatives of `IMG_EXT_RE = r"\.(jpg|jpeg|png|webp|avif)(?:\?|$)"`,
in the regex's order. -/
def imgExtAlts : List (List Char) :=
  [extJpgLit, extJpegLit, extPngLit, extWebpLit, extAvifLit]

/-- The alternatives of the content-type fallback `r"(jpeg|jpg|png|webp|avif)"`,
in the regex's order (`jpeg` before `jpg`). -/
def ctAlts : List (List Char) :=
  [extJpegLit, extJpgLit, extPngLit, extWebpLit, extAvifLit]

/-- Match a lower-case literal against the input case-insensitively;
`some remainder` on success. -/
def matchCaseless : List Char → List Char → Option (List Char)
  | [], s => some s
  | _ :: _, [] => none
  | p :: ps, c :: cs => if lowerChar c = p then matchCaseless ps cs else none

/-- Try the `IMG_EXT_RE` alternatives at one position (after the dot); each
must be followed by `?` or the end of the string.  Returns the lower-cased
captured group. -/
def tryImgAlts : List (List Char) → List Char → Option (List Char)
  | [], _ => none
  | a :: as, rest =>
    match matchCaseless a rest with
    | some [] => some a
    | some ('?' :: _) => some a
    | _ => tryImgAlts as rest

/-- `IMG_EXT_RE.search(url)`: leftmost match of
`\.(jpg|jpeg|png|webp|avif)(?:\?|$)`, case-insensitive; returns the
lower-cased extension group. -/
def imgExtSearch : List Char → Option (List Char)
  | [] => none
  | '.' :: rest =>
    match tryImgAlts imgExtAlts rest with
    | some a => some a
    | none => imgExtSearch rest
  | _ :: rest => imgExtSearch rest

/-- Try the content-type alternatives at one position (no right context). -/
def tryCtAlts : List (List Char) → List Char → Option (List Char)
  | [], _ => none
  | a :: as, s => if (matchCaseless a s).isSome then some a else tryCtAlts as s

/-- Leftmost case-insensitive search of `(jpeg|jpg|png|webp|avif)`. -/
def ctSearch : List Char → Option (List Char)
  | [] => none
  | c :: rest =>
    match tryCtAlts ctAlts (c :: rest) with
    | some a => some a
    | none => ctSearch rest

/-- `infer_ext(url, content_type)` from the source. -/
def infer_ext (url contentType : List Char) : List Char :=
  match imgExtSearch url with
  | some e => e
  | none =>
    match ctSearch contentType with
    | some e => e
    | none => extJpgLit

/-- The two fields of `NetCaptor`: the key-to-bytes map `_data` (an
association list in insertion order, like a Python dict) and the insertion
order list `_order`. -/
structure CaptorState where
  data : List (List Char × (List Nat × List Char))
  order : List (List Char)
deriving DecidableEq, Repr

/-- Dict lookup on the association list. -/
def lookupKey (k : List Char) :
    List (List Char × (List Nat × List Char)) → Option (List Nat × List Char)
  | [] => none
  | (k', v) :: rest => if k = k' then some v else lookupKey k rest

def CaptorState.empty : CaptorState := ⟨[], []⟩

/-- `captor._data.clear(); captor._order.clear()`. -/
def CaptorState.clearAll (_ : CaptorState) : CaptorState := ⟨[], []⟩

/-- `NetCaptor.has`. -/
def CaptorState.has (st : CaptorState) (key : List Char) : Bool :=
  (lookupKey key st.data).isSome

/-- `NetCaptor.take` (total version: `none` models the `KeyError`). -/
def CaptorState.take (st : CaptorState) (key : List Char) :
    Option (List Nat × List Char) :=
  lookupKey key st.data

/-- An observed network response, as read by `NetCaptor._consume`. -/
structure NetResponse where
  url : List Char
  contentType : List Char
  body : List Nat
deriving DecidableEq, Repr

def imageSlashLit : List Char := "image/".toList

/-- A write that `NetCaptor._consume` is about to perform once
`await resp.body()` returns. -/
structure PendingWrite where
  key : List Char
  body : List Nat
  ext : List Char
deriving DecidableEq, Repr

/-- The first phase of `NetCaptor._consume` — everything before
`await resp.body()`: the image guard and the `key in self._data` duplicate
check, against the state as it is at that moment.  `none` means the task
returns without writing; `some` is the write it will perform after the
await. -/
def consumeCheck (st : CaptorState) (r : NetResponse) : Option PendingWrite :=
  let key := normalize_key r.url
  let ct := pyLower r.contentType
  if ¬ (key ≠ [] ∧ (containsSub imageSlashLit ct ∨ (imgExtSearch r.url).isSome))
  then none
  else if (lookupKey key st.data).isSome then none
  else some ⟨key, r.body, infer_ext r.url r.contentType⟩

/-- Python dict assignment `d[key] = v`: replaces the value in place when
the key is present, appends otherwise. -/
def dictInsert (k : List Char) (v : List Nat × List Char) :
    List (List Char × (List Nat × List Char)) →
    List (List Char × (List Nat × List Char))
  | [] => [(k, v)]
  | (k', v') :: rest =>
    if k = k' then (k, v) :: rest else (k', v') :: dictInsert k v rest

/-- The second phase of `NetCaptor._consume` — after `await resp.body()`:
`self._data[key] = (body, ext); self._order.append(key)`.  There is no
re-check: if another task inserted the same key during the await, this
write overwrites its bytes. -/
def applyWrite (st : CaptorState) (w : PendingWrite) : CaptorState :=
  ⟨dictInsert w.key (w.body, w.ext) st.data, st.order ++ [w.key]⟩

/-- One `_consume` run to completion with nothing interleaved between its
check and its write.  (`handler` spawns `_consume` with
`asyncio.create_task`, so two runs may interleave at the await; this
composition is the uninterleaved schedule.) -/
def CaptorState.consume (st : CaptorState) (r : NetResponse) : CaptorState :=
  match consumeCheck st r with
  | none => st
  | some w => applyWrite st w

/-! ### `download_chapter_with_retries` and the per-chapter loop of
`run_download_job`

`process_one_chapter` drives a live browser; it is abstracted as a function
from the attempt number and the captor state it observes to either a
`ChapterResult` (its only `return`s) or a raised exception (it has no
enclosing `try/except`: `page.goto`, `img2pdf.convert`, … can raise out of
it).  The retry wrapper and the batch loop below are translated from the
source; the trace of captor states passed to each attempt is recorded so
that the clearing behaviour can be stated. -/

structure ChapterResult where
  chapter : List Char
  pdf_path : Option (List Char)
  success : Bool
  message : List Char
  pages : Nat
  size_bytes : Nat
deriving DecidableEq, Repr

inductive ChapterOutcome where
  | result (r : ChapterResult)
  | raised (msg : List Char)
deriving DecidableEq, Repr

def retriesExhaustedMsg : List Char := "Retries exhausted.".toList

/-- The synthetic result built when the loop ends with `last is None`. -/
def syntheticExhausted (fallbackChapter : List Char) : ChapterResult :=
  ⟨fallbackChapter, none, false, retriesExhaustedMsg, 0, 0⟩

/-- The attempt loop of `download_chapter_with_retries`: `remaining` counts
the attempts left (`max 1 retries` initially), `last` is the last failing
result.  Returns the outcome (`Except.error` models an exception escaping
`process_one_chapter`), the final captor state, and the list of captor
states passed to `process_one_chapter`, one per attempt made. -/
def runAttempts (process : Nat → CaptorState → ChapterOutcome × CaptorState)
    (fallbackChapter : List Char) :
    Nat → Nat → Option ChapterResult → CaptorState →
    Except (List Char) ChapterResult × CaptorState × List CaptorState
  | 0, _, last, st =>
    (Except.ok (match last with
      | some r => r
      | none => syntheticExhausted fallbackChapter), st, [])
  | n + 1, attempt, _last, st =>
    let cleared := st.clearAll
    match process attempt cleared with
    | (ChapterOutcome.raised m, st') => (Except.error m, st', [cleared])
    | (ChapterOutcome.result r, st') =>
      if r.success then (Except.ok r, st', [cleared])
      else
        match runAttempts process fallbackChapter n (attempt + 1) (some r) st' with
        | (out, stF, ins) => (out, stF, cleared :: ins)

/-- `download_chapter_with_retries` (default `retries=3`). -/
def download_chapter_with_retries
    (process : Nat → CaptorState → ChapterOutcome × CaptorState)
    (fallbackChapter : List Char) (retries : Nat) (st : CaptorState) :
    Except (List Char) ChapterResult × CaptorState × List CaptorState :=
  runAttempts process fallbackChapter (max 1 retries) 1 none st

/-- The per-chapter loop shared by the `list` and `nextN` branches of
`run_download_job` (the `single` branch is the one-element case): one
retry-wrapped acquisition per resolved chapter, results appended in order,
with the single shared captor threaded through.  An exception escaping a
chapter aborts the loop (there is no `try/except` around it in the source;
the `finally` only closes the browser). -/
def runChapters (process : Nat → Nat → CaptorState → ChapterOutcome × CaptorState)
    (retries : Nat) :
    Nat → List (List Char) → CaptorState →
    Except (List Char) (List ChapterResult)
  | _, [], _ => Except.ok []
  | i, c :: cs, st =>
    match download_chapter_with_retries (process i) c retries st with
    | (Except.error m, _, _) => Except.error m
    | (Except.ok r, st', _) =>
      match runChapters process retries (i + 1) cs st' with
      | Except.error m => Except.error m
      | Except.ok rs => Except.ok (r :: rs)

/-- `run_download_job`'s aggregation over the resolved chapter list,
starting from a fresh captor. -/
def run_download_job
    (process : Nat → Nat → CaptorState → ChapterOutcome × CaptorState)
    (chapters : List (List Char)) (retries : Nat) :
    Except (List Char) (List ChapterResult) :=
  runChapters process retries 0 chapters CaptorState.empty

/-! ### The navigation branch of the traffic filter
(`ensure_context_filters._route_handler`)

The handler decides one of: abort, fulfill a synthesized placeholder,
fulfill the manually fetched response, or fall through without resolving
the route at all (`noAction` — in Playwright such a request stalls).
`urljoin` (only reached for a relative `Location`) is abstracted as a
parameter; no claim depends on relative reference resolution. -/

inductive RouteAction where
  | abort
  | fulfillPlaceholder (body : List Char)
  | fulfillFetched
  | noAction
deriving DecidableEq, Repr

def httpsColon : List Char := "https:".toList
def slashSlash : List Char := "//".toList
def httpLit : List Char := "http".toList

/-- `abs_url(u, base)` from the source; `urljoinF` abstracts
`urllib.parse.urljoin`. -/
def abs_url (urljoinF : List Char → List Char → List Char)
    (u base : List Char) : List Char :=
  if u = [] then []
  else
    let u' := pyStrip u
    if listStartsWith slashSlash u' then httpsColon ++ u'
    else if listStartsWith httpLit u' then u'
    else urljoinF base u'

/-- `_host_from_url`: the netloc up to the first `:`, lower-cased. -/
def _host_from_url (u : List Char) : List Char :=
  pyLower ((urlparse u).netloc.takeWhile (fun x => x ≠ ':'))

def phPart1 : List Char := "<html><body><h3>Redirect bloqueado</h3><p>Origen: ".toList
def phPart2 : List Char := "</p><p>Destino: ".toList
def phUnknown : List Char := "desconocido".toList
def phPart3 : List Char :=
  "</p><script>window._redirect_blocked=true;</script></body></html>".toList

/-- The synthesized placeholder body for a blocked redirect. -/
def placeholderBody (origin dest : List Char) : List Char :=
  phPart1 ++ origin ++ phPart2 ++ (if dest = [] then phUnknown else dest) ++ phPart3

/-- The marker `_has_redirect_block_flag` looks for: the placeholder's script
sets `window._redirect_blocked`. -/
def redirectBlockedMarker : List Char := "window._redirect_blocked=true".toList

/-- `dest_url = abs_url(location, request.url) if location else ""`. -/
def navDestUrl (urljoinF : List Char → List Char → List Char)
    (locationHeader requestUrl : List Char) : List Char :=
  if locationHeader = [] then []
  else abs_url urljoinF locationHeader requestUrl

/-- The part of `_route_handler` that runs for a navigation request once
`route.fetch()` succeeded (source lines 687–752): the redirect inspection
for a 3xx status, and the fulfill-as-is path otherwise.  Returns the action
taken on the route and the updated allowed-host set.  Note the non-blocked
3xx branches end in `noAction`: the source `return`s there without calling
`route.fulfill`/`route.continue_`/`route.abort`. -/
def handleNavResponse (blockHost blockIp : List Char → Bool)
    (urljoinF : List Char → List Char → List Char)
    (allowed : List (List Char)) (requestUrl : List Char) (status : Nat)
    (locationHeader : List Char) : RouteAction × List (List Char) :=
  if 300 ≤ status ∧ status < 400 then
    let dest_url := navDestUrl urljoinF locationHeader requestUrl
    let dest_host := _host_from_url dest_url
    if dest_host ≠ [] ∧ blockHost dest_host then
      (RouteAction.fulfillPlaceholder (placeholderBody requestUrl dest_url), allowed)
    else if dest_host ≠ [] ∧ blockIp dest_host then
      (RouteAction.fulfillPlaceholder (placeholderBody requestUrl dest_url), allowed)
    else if dest_host ≠ [] ∧ dest_host ∉ allowed then
      (RouteAction.noAction, dest_host :: allowed)
    else
      (RouteAction.noAction, allowed)
  else
    let req_host := _host_from_url requestUrl
    if req_host ≠ [] ∧ blockHost req_host then (RouteAction.abort, allowed)
    else if req_host ≠ [] ∧ blockIp req_host then (RouteAction.abort, allowed)
    else if req_host ≠ [] ∧ req_host ∉ allowed then
      (RouteAction.fulfillFetched, req_host :: allowed)
    else (RouteAction.fulfillFetched, allowed)

/-! ### Concrete inputs used by witnesses and counterexamples -/

def plusFiveLit : List Char := "+5".toList
def numFiveLit : List Char := "5".toList
def seq848586Lit : List Char := "84,85,86".toList
def tok84Lit : List Char := "84".toList
def tok85Lit : List Char := "85".toList
def tok86Lit : List Char := "86".toList
def abc84Lit : List Char := "abc 84".toList
def nextTwelveLit : List Char := " NEXT: 12 ".toList
def nextTabFiveLit : List Char := "next\t5".toList
def nextWsSevenLit : List Char := "next \t 7".toList
def tok7Lit : List Char := "7".toList
def tok12Lit : List Char := "12".toList
def wsOnlyLit : List Char := "  ".toList
def urlExampleLit : List Char := "https://leercapitulo.co/leer/x/y/84/".toList

def abcLit : List Char := "abc".toList
def httpsFullLit : List Char := "https://example.com/img/a.jpg?token=1#frag".toList
def httpsStrippedLit : List Char := "https://example.com/img/a.jpg".toList
def httpsPlainLit : List Char := "https://example.com/a/b".toList

def exImgUrlLit : List Char := "https://cdn.example/img/01.jpg?tok=5".toList
def exImgKeyLit : List Char := "https://cdn.example/img/01.jpg".toList
def ctImageJpegLit : List Char := "image/jpeg".toList
def exResponse1 : NetResponse := ⟨exImgUrlLit, ctImageJpegLit, [10, 20]⟩
def exResponse2 : NetResponse := ⟨exImgUrlLit, ctImageJpegLit, [30, 40]⟩

def keyALit : List Char := "a".toList
def keyBLit : List Char := "b".toList
def keyCLit : List Char := "c".toList
def keyXLit : List Char := "x".toList

/-- Targets exercising dedup: a duplicate page, an out-of-order page and an
invalid page number. -/
def exTargets : List (Int × List Char) :=
  [(2, keyALit), (1, keyBLit), (2, keyCLit), (0, keyXLit), (3, keyXLit)]

def boomMsg : List Char := "boom".toList
def failMsg : List Char := "fail".toList
def chap1Lit : List Char := "1".toList
def chap2Lit : List Char := "2".toList

/-- A process that always raises (models e.g. `page.goto` timing out inside
`process_one_chapter`, which has no enclosing `try/except`). -/
def exRaisingProcess (_chapter _attempt : Nat) (st : CaptorState) :
    ChapterOutcome × CaptorState :=
  (ChapterOutcome.raised boomMsg, st)

/-- A process whose every attempt returns a failing `ChapterResult`. -/
def exFailingProcess (attempt : Nat) (st : CaptorState) :
    ChapterOutcome × CaptorState :=
  (ChapterOutcome.result ⟨natToDec attempt, none, false, failMsg, 0, 0⟩, st)

def exFailingProcess2 (_chapter attempt : Nat) (st : CaptorState) :
    ChapterOutcome × CaptorState :=
  exFailingProcess attempt st

/-- A captor state left dirty by a previous attempt. -/
def exDirtyState : CaptorState := ⟨[(exImgKeyLit, ([10, 20], extJpgLit))], [exImgKeyLit]⟩

def reqUrlLit : List Char := "https://a.example/x".toList
def destUrlLit : List Char := "https://b.example/y".toList
def destHostLit : List Char := "b.example".toList
def badDestUrlLit : List Char := "https://bad.example/y".toList
def badHostLit : List Char := "bad.example".toList

/-- A blocklist oracle blocking exactly `bad.example`, and one blocking
nothing. -/
def exBlockHost (h : List Char) : Bool := h == badHostLit
def exNoBlock (_ : List Char) : Bool := false

/-- A trivial stand-in for `urljoin`; never reached on an absolute
`Location` value. -/
def exUrljoin (base _rel : List Char) : List Char := base

def onePagePdfPartA : List Char :=
  "%PDF-1.4\n1 0 obj\n<< /Type /Catalog /Pages 2 0 R >>\nendobj\n".toList
def onePagePdfPartB : List Char :=
  "2 0 obj\n<< /Type /Pages /Kids [3 0 R] /Count 1 >>\nendobj\n".toList
def onePagePdfPartC : List Char :=
  "3 0 obj\n<< /Type /Page /Parent 2 0 R /MediaBox [0 0 612 792] >>\nendobj\n".toList
def onePagePdfPartD : List Char :=
  "trailer\n<< /Root 1 0 R >>\n%%EOF\n".toList

/-- A minimal well-formed one-page PDF skeleton: a catalog, one page-tree
node (`/Type /Pages`, `/Count 1`) and exactly one page object
(`/Type /Page`). -/
def onePagePdfText : List Char :=
  onePagePdfPartA ++ onePagePdfPartB ++ onePagePdfPartC ++ onePagePdfPartD

def onePagePdf : List Nat := onePagePdfText.map Char.toNat

/-! ## Theorems -/

/-! ### Shared helper lemmas -/

theorem toNat_ofNat_lt {n : Nat} (h : n < 55296) : (Char.ofNat n).toNat = n := by
  have hv : n.isValidChar := Or.inl h
  simp only [Char.ofNat, Char.ofNatAux, Char.toNat, hv, dif_pos]
  simp [UInt32.toNat, UInt32.ofNatCore]

theorem lowerChar_toNat (c : Char) :
    (lowerChar c).toNat = if 65 ≤ c.toNat ∧ c.toNat ≤ 90 then c.toNat + 32 else c.toNat := by
  unfold lowerChar
  split
  · next h => exact toNat_ofNat_lt (by omega)
  · rfl

theorem lowerChar_idem (c : Char) : lowerChar (lowerChar c) = lowerChar c := by
  unfold lowerChar
  split
  · next h =>
    have ht : (Char.ofNat (c.toNat + 32)).toNat = c.toNat + 32 := toNat_ofNat_lt (by omega)
    rw [if_neg]
    omega
  · rfl

theorem lowerChar_schemeChar {c : Char} (h : isSchemeChar c = true) :
    isSchemeChar (lowerChar c) = true := by
  have ht := lowerChar_toNat c
  simp only [isSchemeChar, decide_eq_true_eq] at h ⊢
  split at ht <;> omega

theorem lowerChar_alpha {c : Char} (h : isAlphaChar c = true) :
    isAlphaChar (lowerChar c) = true := by
  have ht := lowerChar_toNat c
  simp only [isAlphaChar, decide_eq_true_eq] at h ⊢
  split at ht <;> omega

theorem schemeChar_ne_colon {c : Char} (h : isSchemeChar c = true) : c ≠ ':' := by
  intro he
  subst he
  simp [isSchemeChar] at h

theorem takeWhile_append_cons {α : Type} (p : α → Bool) (l1 : List α) (c : α)
    (l2 : List α) (h1 : ∀ x ∈ l1, p x = true) (hc : p c = false) :
    (l1 ++ c :: l2).takeWhile p = l1 := by
  induction l1 with
  | nil => simp [List.takeWhile, hc]
  | cons a tl ih =>
    have ha : p a = true := h1 a (by simp)
    simp only [List.cons_append, List.takeWhile_cons, ha, if_true]
    rw [ih (fun x hx => h1 x (by simp [hx]))]

theorem dropWhile_append_cons {α : Type} (p : α → Bool) (l1 : List α) (c : α)
    (l2 : List α) (h1 : ∀ x ∈ l1, p x = true) (hc : p c = false) :
    (l1 ++ c :: l2).dropWhile p = c :: l2 := by
  induction l1 with
  | nil => simp [List.dropWhile, hc]
  | cons a tl ih =>
    have ha : p a = true := h1 a (by simp)
    simp only [List.cons_append, List.dropWhile_cons, ha, if_true]
    exact ih (fun x hx => h1 x (by simp [hx]))

theorem containsSub_append_right {α : Type} [DecidableEq α] (pat l2 : List α)
    (h : containsSub pat l2 = true) (l1 : List α) :
    containsSub pat (l1 ++ l2) = true := by
  induction l1 with
  | nil => simpa
  | cons a tl ih =>
    simp only [List.cons_append, containsSub, Bool.or_eq_true]
    exact Or.inr ih

/-! ### C1: `validate_pdf` -/

/-- C1.  For every readable PDF content and optional expected page count,
`validate_pdf` returns the measured page count and byte size, and is valid
exactly when: pages > 0, size ≥ the absolute floor (100000), size ≥
pages × the per-page floor (100000), size ≥ the multi-page floor (200000)
whenever pages exceed the threshold (2), and pages ≥ ⌊expected/2⌋ when an
expected count is given.  An unreadable path yields `(false, 0, 0)`. -/
theorem C1_validate_pdf_spec (data : List Nat) (e : Option Nat) :
    ((validate_pdf (some data) e PDF_MIN_SIZE_BYTES).1 = true ↔
      (0 < pdf_page_count (some data) ∧
       PDF_MIN_SIZE_BYTES ≤ data.length ∧
       pdf_page_count (some data) * PDF_MIN_PAGE_BYTES ≤ data.length ∧
       (PDF_MULTI_PAGE_THRESHOLD < pdf_page_count (some data) →
         PDF_MIN_TOTAL_FOR_MULTI ≤ data.length) ∧
       (∀ n, e = some n → n / 2 ≤ pdf_page_count (some data)))) ∧
    (validate_pdf (some data) e PDF_MIN_SIZE_BYTES).2.1 = pdf_page_count (some data) ∧
    (validate_pdf (some data) e PDF_MIN_SIZE_BYTES).2.2 = data.length ∧
    validate_pdf none e PDF_MIN_SIZE_BYTES = (false, 0, 0) := by
  cases e with
  | none =>
    simp only [validate_pdf]
    split_ifs with h1 h2 <;>
      simp_all <;> omega
  | some k =>
    simp only [validate_pdf]
    split_ifs with h1 h2 h3 <;>
      simp_all <;> omega

/-! ### C9: `pdf_page_count` overcounts page-tree nodes -/

/-- C9.  `pdf_page_count` counts occurrences of the byte string
`/Type /Page`, which is a prefix of the page-tree marker `/Type /Pages`,
so every page-tree node is counted as an extra page: on a minimal
well-formed one-page PDF (one `/Type /Pages` node, one page object) it
returns 2, and `validate_pdf` reports and checks that inflated count.
A file that cannot be read yields 0.  Any data containing the page-tree
marker contains the counted pattern. -/
theorem listStartsWith_append_self {α : Type} [DecidableEq α] (l rest : List α) :
    listStartsWith l (l ++ rest) = true := by
  induction l with
  | nil => rfl
  | cons a tl ih => simp [listStartsWith, ih]

theorem containsSub_of_starts {α : Type} [DecidableEq α] (pat l : List α)
    (h : listStartsWith pat l = true) : containsSub pat l = true := by
  cases l with
  | nil =>
    cases pat with
    | nil => rfl
    | cons p ps => simp [listStartsWith] at h
  | cons c cs => simp [containsSub, h]

set_option maxRecDepth 16384 in
theorem C9_pdf_page_count_overcounts :
    pdf_page_count none = 0 ∧
    listStartsWith pdfPagePattern pdfPagesPattern = true ∧
    countSub pdfPagesPattern onePagePdf = 1 ∧
    pdf_page_count (some onePagePdf) = 2 ∧
    (validate_pdf (some onePagePdf) (some 1) PDF_MIN_SIZE_BYTES).2.1 = 2 ∧
    (∀ l1 l2 : List Nat,
      containsSub pdfPagePattern (l1 ++ (pdfPagesPattern ++ l2)) = true) := by
  refine ⟨rfl, by decide, by decide, by decide, by decide, ?_⟩
  intro l1 l2
  apply containsSub_append_right
  apply containsSub_of_starts
  have he : pdfPagesPattern = pdfPagePattern ++ [115] := by decide
  rw [he, List.append_assoc]
  exact listStartsWith_append_self _ _

/-! ### C3 and C10: `parse_sequence_input` -/

theorem matchNextN_nil : matchNextN [] = none := rfl

theorem parse_of_strip_nil (s url : List Char) (h : pyStrip s = []) :
    parse_sequence_input s url = (modeSingle, [url]) := by
  simp [parse_sequence_input, h, pyLower]

theorem parse_of_matchNextN (s url : List Char) (n : Nat)
    (h : matchNextN (pyLower (pyStrip s)) = some n) :
    parse_sequence_input s url = (modeNextN, [natToDec n]) := by
  have hne : pyLower (pyStrip s) ≠ [] := by
    intro he
    rw [he, matchNextN_nil] at h
    exact Option.noConfusion h
  simp only [parse_sequence_input]
  rw [if_neg hne, h]

theorem parse_of_tokens (s url : List Char)
    (hne : pyLower (pyStrip s) ≠ [])
    (hm : matchNextN (pyLower (pyStrip s)) = none) :
    parse_sequence_input s url =
      (if (splitTokens (pyLower (pyStrip s))).filter is_chapter_token = []
       then (modeSingle, [url])
       else (modeList, (splitTokens (pyLower (pyStrip s))).filter is_chapter_token)) := by
  simp only [parse_sequence_input]
  rw [if_neg hne, hm]

/-- C3.  `parse_sequence_input`: empty or all-whitespace input yields
`(single, [url])`; a `+N` or `next:N` phrase yields the forward-window mode
with payload `[N]`; input whose comma/space-separated tokens are all chapter
numbers yields the explicit-list mode with the token list; input none of
whose tokens is a chapter number (and which is no `+N`/`next:N` phrase)
yields `(single, [url])`.  In particular `""` ↦ `(single, [url])`,
`"+5"` ↦ `(nextN, ["5"])` and `"84,85,86"` ↦ `(list, ["84","85","86"])`.
The keyword separator is the regex `\s*[: ]\s*`, which needs a literal `:`
or space: `"next\t5"` (tab only) is not a phrase and falls to the token
branch, while `"next \t 7"` (run containing a space) is one. -/
theorem C3_parse_sequence_input_spec :
    (∀ s url, pyStrip s = [] → parse_sequence_input s url = (modeSingle, [url])) ∧
    (∀ url, parse_sequence_input [] url = (modeSingle, [url])) ∧
    (∀ url, parse_sequence_input plusFiveLit url = (modeNextN, [numFiveLit])) ∧
    (∀ url, parse_sequence_input seq848586Lit url =
      (modeList, [tok84Lit, tok85Lit, tok86Lit])) ∧
    (∀ url, parse_sequence_input nextTabFiveLit url = (modeList, [numFiveLit])) ∧
    (∀ url, parse_sequence_input nextWsSevenLit url = (modeNextN, [tok7Lit])) ∧
    (∀ s url n, matchNextN (pyLower (pyStrip s)) = some n →
      parse_sequence_input s url = (modeNextN, [natToDec n])) ∧
    (∀ s url, pyLower (pyStrip s) ≠ [] →
      matchNextN (pyLower (pyStrip s)) = none →
      splitTokens (pyLower (pyStrip s)) ≠ [] →
      (∀ t ∈ splitTokens (pyLower (pyStrip s)), is_chapter_token t = true) →
      parse_sequence_input s url = (modeList, splitTokens (pyLower (pyStrip s)))) ∧
    (∀ s url, pyLower (pyStrip s) ≠ [] →
      matchNextN (pyLower (pyStrip s)) = none →
      (∀ t ∈ splitTokens (pyLower (pyStrip s)), is_chapter_token t = false) →
      parse_sequence_input s url = (modeSingle, [url])) := by
  refine ⟨parse_of_strip_nil, fun url => rfl, fun url => rfl, fun url => rfl,
    fun url => rfl, fun url => rfl, parse_of_matchNextN, ?_, ?_⟩
  · intro s url hne hm htne hall
    rw [parse_of_tokens s url hne hm, List.filter_eq_self.2 hall, if_neg htne]
  · intro s url hne hm hnone
    rw [parse_of_tokens s url hne hm, if_pos]
    exact List.filter_eq_nil_iff.2 (fun t ht => by simp [hnone t ht])

/-- Closed instances of `C3_parse_sequence_input_spec`'s conditional parts:
whitespace-only input, a spelled-out `next: 12` phrase, and an input with
no numeric token. -/
theorem C3_parse_sequence_input_witness :
    parse_sequence_input wsOnlyLit urlExampleLit = (modeSingle, [urlExampleLit]) ∧
    parse_sequence_input nextTwelveLit urlExampleLit = (modeNextN, [tok12Lit]) ∧
    parse_sequence_input abcLit urlExampleLit = (modeSingle, [urlExampleLit]) := by
  obtain ⟨h1, _, _, _, _, _, h7, _, h9⟩ := C3_parse_sequence_input_spec
  exact ⟨h1 wsOnlyLit urlExampleLit (by decide),
    h7 nextTwelveLit urlExampleLit 12 (by decide),
    h9 abcLit urlExampleLit (by decide) (by decide) (by decide)⟩

/-- C10.  For a non-empty input that is no `+N`/`next:N` phrase, the list
mode is returned with exactly the chapter-number tokens, every non-numeric
token silently dropped (`"abc 84"` ↦ `(list, ["84"])`), and the single mode
is returned exactly when no token is a chapter number. -/
theorem C10_parse_drops_non_numeric :
    (∀ s url, pyLower (pyStrip s) ≠ [] →
      matchNextN (pyLower (pyStrip s)) = none →
      (splitTokens (pyLower (pyStrip s))).filter is_chapter_token ≠ [] →
      parse_sequence_input s url =
        (modeList, (splitTokens (pyLower (pyStrip s))).filter is_chapter_token)) ∧
    (∀ url, parse_sequence_input abc84Lit url = (modeList, [tok84Lit])) ∧
    (∀ s url, pyLower (pyStrip s) ≠ [] →
      matchNextN (pyLower (pyStrip s)) = none →
      ((parse_sequence_input s url).1 = modeSingle ↔
        ∀ t ∈ splitTokens (pyLower (pyStrip s)), is_chapter_token t = false)) := by
  refine ⟨?_, fun url => rfl, ?_⟩
  · intro s url hne hm hfne
    rw [parse_of_tokens s url hne hm, if_neg hfne]
  · intro s url hne hm
    rw [parse_of_tokens s url hne hm]
    constructor
    · intro h1
      split at h1
      · next hf =>
        intro t ht
        have := List.filter_eq_nil_iff.1 hf t ht
        simpa using this
      · next hf => simp [modeList, modeSingle] at h1
    · intro hall
      rw [if_pos (List.filter_eq_nil_iff.2 (fun t ht => by simp [hall t ht]))]

/-- Closed instances of `C10_parse_drops_non_numeric`: a mixed input with
one numeric and one non-numeric token keeps only the numeric token, and a
tab-separated `"next\t5"` — no `+N`/`next:N` phrase under the program's
regex — also takes the token branch. -/
theorem C10_parse_drops_non_numeric_witness :
    parse_sequence_input abc84Lit urlExampleLit = (modeList, [tok84Lit]) ∧
    parse_sequence_input nextTabFiveLit urlExampleLit =
      (modeList, [numFiveLit]) := by
  have h1 := C10_parse_drops_non_numeric.1 abc84Lit urlExampleLit
    (by decide) (by decide) (by decide)
  have h2 := C10_parse_drops_non_numeric.1 nextTabFiveLit urlExampleLit
    (by decide) (by decide) (by decide)
  have he1 : (splitTokens (pyLower (pyStrip abc84Lit))).filter is_chapter_token =
      [tok84Lit] := by decide
  have he2 : (splitTokens (pyLower (pyStrip nextTabFiveLit))).filter
      is_chapter_token = [numFiveLit] := by decide
  rw [he1] at h1
  rw [he2] at h2
  exact ⟨h1, h2⟩

/-! ### C5: `dedupe_targets_by_page` -/

/-- Full behaviour of the dedup loop, by induction on the remaining input,
generalised over the `seen` set and the accumulator. -/
theorem dedupeAux_spec (limit : Option Nat) :
    ∀ (rest : List (Int × List Char)) (seen : List Int)
      (acc : List (Int × List Char)),
    (∀ q : Int, q ∈ seen ↔ q ∈ acc.map Prod.fst) →
    (acc.map Prod.fst).Nodup →
    (∀ l, limit = some l → acc.length < l) →
    ∃ add, dedupeAux limit seen acc rest = acc ++ add ∧
      List.Sublist add (rest.filter validTarget) ∧
      (add.map Prod.fst).Nodup ∧
      (∀ q ∈ add.map Prod.fst, q ∉ seen) ∧
      (∀ l, limit = some l → (acc ++ add).length ≤ l) ∧
      (∀ pk ∈ add,
        (rest.filter (fun t => validTarget t && t.1 == pk.1)).head? = some pk) ∧
      (limit = none → ∀ t ∈ rest, validTarget t = true →
        t.1 ∈ (acc ++ add).map Prod.fst) := by
  intro rest
  induction rest with
  | nil =>
    intro seen acc hiff hnd hlim
    refine ⟨[], by simp [dedupeAux], by simp, by simp, by simp, ?_, by simp, by simp⟩
    intro l hl
    have := hlim l hl
    simp
    omega
  | cons hd tl ih =>
    obtain ⟨p, k⟩ := hd
    intro seen acc hiff hnd hlim
    by_cases hv : validTarget (p, k) = true
    · by_cases hp : p ∈ seen
      · -- already seen: the entry is skipped
        obtain ⟨add, heq, hsub, hand, hnotseen, hlen, hhead, hall⟩ :=
          ih seen acc hiff hnd hlim
        refine ⟨add, ?_, ?_, hand, hnotseen, hlen, ?_, ?_⟩
        · simpa [dedupeAux, hv, hp] using heq
        · rw [List.filter_cons_of_pos hv]
          exact hsub.cons _
        · intro pk hpk
          have hne : pk.1 ≠ p := by
            intro he
            exact (hnotseen pk.1 (List.mem_map_of_mem Prod.fst hpk)) (he ▸ hp)
          rw [List.filter_cons_of_neg, ]
          · exact hhead pk hpk
          · simp [hne.symm, hv]
        · intro hnone t ht htv
          rcases List.mem_cons.1 ht with he | ht'
          · subst he
            have hm : (p, k).1 ∈ acc.map Prod.fst := (hiff p).1 hp
            simp only [List.map_append, List.mem_append]
            exact Or.inl hm
          · exact hall hnone t ht' htv
      · -- a new valid page number
        by_cases hstop : ∃ l, limit = some l ∧ l ≤ (acc ++ [(p, k)]).length
        · -- the limit is reached: the loop breaks with this entry appended
          obtain ⟨l, hle, hll⟩ := hstop
          have hlt := hlim l hle
          refine ⟨[(p, k)], ?_, ?_, by simp, ?_, ?_, ?_, ?_⟩
          · simp only [dedupeAux, hv, not_true, if_neg, if_false, hp, hle]
            simp only [List.length_append, List.length_cons, List.length_nil]
            rw [if_pos (by simpa using hll)]
          · rw [List.filter_cons_of_pos hv]
            exact List.Sublist.cons₂ _ (List.nil_sublist _)
          · intro q hq
            simp only [List.map_cons, List.map_nil, List.mem_singleton] at hq
            exact hq ▸ hp
          · intro l' hl'
            rw [hle] at hl'
            cases hl'
            simp only [List.length_append, List.length_cons, List.length_nil]
            omega
          · intro pk hpk
            simp only [List.mem_singleton] at hpk
            subst hpk
            rw [List.filter_cons_of_pos (by simp [hv])]
            rfl
          · intro hnone
            rw [hnone] at hle
            exact Option.noConfusion hle
        · -- below the limit: the loop continues with the entry recorded
          have hiff' : ∀ q : Int, q ∈ p :: seen ↔ q ∈ (acc ++ [(p, k)]).map Prod.fst := by
            intro q
            simp only [List.mem_cons, List.map_append, List.mem_append, hiff q,
              List.map_cons, List.map_nil, List.mem_singleton]
            tauto
          have hpacc : p ∉ acc.map Prod.fst := fun hm => hp ((hiff p).2 hm)
          have hnd' : ((acc ++ [(p, k)]).map Prod.fst).Nodup := by
            simp only [List.map_append, List.map_cons, List.map_nil]
            rw [List.nodup_append]
            exact ⟨hnd, List.nodup_singleton p, by simpa using hpacc⟩
          have hlim' : ∀ l, limit = some l → (acc ++ [(p, k)]).length < l := by
            intro l hl
            by_contra hge
            exact hstop ⟨l, hl, by omega⟩
          obtain ⟨add, heq, hsub, hand, hnotseen, hlen, hhead, hall⟩ :=
            ih (p :: seen) (acc ++ [(p, k)]) hiff' hnd' hlim'
          refine ⟨(p, k) :: add, ?_, ?_, ?_, ?_, ?_, ?_, ?_⟩
          · have hloop : dedupeAux limit seen acc ((p, k) :: tl) =
                dedupeAux limit (p :: seen) (acc ++ [(p, k)]) tl := by
              simp only [dedupeAux, hv, not_true, if_neg, if_false, hp]
              cases hlm : limit with
              | none => rfl
              | some l =>
                have hnle : ¬ l ≤ (acc ++ [(p, k)]).length :=
                  fun hge => hstop ⟨l, hlm, hge⟩
                simp only [List.length_append, List.length_cons,
                  List.length_nil, Nat.zero_add] at hnle
                simp [hnle]
            rw [hloop, heq]
            simp
          · rw [List.filter_cons_of_pos hv]
            exact List.Sublist.cons₂ _ hsub
          · simp only [List.map_cons, List.nodup_cons]
            refine ⟨?_, hand⟩
            intro hm
            exact (hnotseen p hm) (List.mem_cons_self p seen)
          · intro q hq
            simp only [List.map_cons, List.mem_cons] at hq
            rcases hq with he | hm
            · exact he ▸ hp
            · intro hqs
              exact (hnotseen q hm) (List.mem_cons_of_mem p hqs)
          · intro l hl
            have := hlen l hl
            simp only [List.length_append, List.length_cons] at this ⊢
            omega
          · intro pk hpk
            rcases List.mem_cons.1 hpk with he | hm
            · subst he
              rw [List.filter_cons_of_pos (by simp [hv])]
              rfl
            · have hne : pk.1 ≠ p := by
                intro he
                exact (hnotseen pk.1 (List.mem_map_of_mem Prod.fst hm))
                  (he ▸ List.mem_cons_self p seen)
              rw [List.filter_cons_of_neg (by simp [hne.symm])]
              exact hhead pk hm
          · intro hnone t ht htv
            rcases List.mem_cons.1 ht with he | ht'
            · subst he
              simp [List.map_append]
            · have := hall hnone t ht' htv
              simp only [List.map_append, List.map_cons, List.map_nil,
                List.mem_append, List.mem_cons, List.mem_singleton] at this ⊢
              tauto
    · -- invalid entry: dropped entirely
      obtain ⟨add, heq, hsub, hand, hnotseen, hlen, hhead, hall⟩ :=
        ih seen acc hiff hnd hlim
      refine ⟨add, ?_, ?_, hand, hnotseen, hlen, ?_, ?_⟩
      · simpa [dedupeAux, hv] using heq
      · rwa [List.filter_cons_of_neg (by simpa using hv)]
      · intro pk hpk
        rw [List.filter_cons_of_neg (by simp [hv])]
        exact hhead pk hpk
      · intro hnone t ht htv
        rcases List.mem_cons.1 ht with he | ht'
        · subst he
          exact absurd htv hv
        · exact hall hnone t ht' htv

/-- C5 counterexample.  As stated the claim fails on the code: an entry with
an empty key is skipped, so for page 1 the kept entry `(1, "x")` is the
second occurrence, not the first; and with `limit = 0` the loop appends one
entry before testing the limit, so the output length exceeds the limit. -/
theorem C5_dedupe_cex :
    dedupe_targets_by_page [(1, []), (1, keyXLit)] none = [(1, keyXLit)] ∧
    (1, ([] : List Char)) ∉ dedupe_targets_by_page [(1, []), (1, keyXLit)] none ∧
    (dedupe_targets_by_page [(1, keyALit)] (some 0)).length = 1 := by
  decide

/-- C5 (amended).  `dedupe_targets_by_page` skips entries with non-positive
page number or empty key; on the remaining entries page numbers are pairwise
distinct, each kept entry is the first valid occurrence of its page number,
input order is preserved (the output is a sublist of the valid entries),
the length is at most `limit` whenever a positive limit is given, and with
no limit every valid page number appears. -/
theorem C5_dedupe_targets_spec (targets : List (Int × List Char))
    (limit : Option Nat) (hl : ∀ l, limit = some l → 1 ≤ l) :
    ((dedupe_targets_by_page targets limit).map Prod.fst).Nodup ∧
    List.Sublist (dedupe_targets_by_page targets limit)
      (targets.filter validTarget) ∧
    (∀ pk ∈ dedupe_targets_by_page targets limit,
      (targets.filter (fun t => validTarget t && t.1 == pk.1)).head? = some pk) ∧
    (∀ l, limit = some l →
      (dedupe_targets_by_page targets limit).length ≤ l) ∧
    (limit = none → ∀ t ∈ targets, validTarget t = true →
      t.1 ∈ (dedupe_targets_by_page targets limit).map Prod.fst) := by
  obtain ⟨add, heq, hsub, hand, _, hlen, hhead, hall⟩ :=
    dedupeAux_spec limit targets [] []
      (by simp) (by simp) (fun l hle => by simpa using hl l hle)
  have hout : dedupe_targets_by_page targets limit = add := by
    simpa [dedupe_targets_by_page] using heq
  rw [hout]
  refine ⟨hand, hsub, hhead, ?_, ?_⟩
  · intro l hle
    simpa using hlen l hle
  · intro hnone t ht htv
    simpa using hall hnone t ht htv

/-- Closed instance of `C5_dedupe_targets_spec` at `exTargets` with
`limit = some 2`: distinct pages, capped length, first-valid-occurrence. -/
theorem C5_dedupe_targets_witness :
    ((dedupe_targets_by_page exTargets (some 2)).map Prod.fst).Nodup ∧
    (dedupe_targets_by_page exTargets (some 2)).length ≤ 2 := by
  have h := C5_dedupe_targets_spec exTargets (some 2)
    (fun l hle => by cases hle; omega)
  exact ⟨h.1, h.2.2.2.1 2 rfl⟩

/-! ### C6: `normalize_key` -/

theorem splitOnceAt_fst_mem (d : Char) (u : List Char) :
    ∀ x ∈ (splitOnceAt d u).1, x ≠ d ∧ x ∈ u := by
  intro x hx
  simp only [splitOnceAt] at hx
  split_ifs at hx with hdw
  · exact ⟨by simpa using List.dropWhile_eq_nil_iff.1 hdw x hx, hx⟩
  · exact ⟨by simpa using List.mem_takeWhile_imp hx,
      (List.takeWhile_sublist _).subset hx⟩

theorem splitOnceAt_of_not_mem (d : Char) (u : List Char)
    (h : ∀ x ∈ u, x ≠ d) : splitOnceAt d u = (u, []) := by
  simp only [splitOnceAt]
  rw [if_pos (List.dropWhile_eq_nil_iff.2 (fun x hx => by simpa using h x hx))]

theorem splitNetloc_fst_mem (v : List Char) :
    ∀ x ∈ (splitNetloc v).1, isNetlocDelim x = false := by
  intro x hx
  unfold splitNetloc at hx
  split at hx
  · have := List.mem_takeWhile_imp hx
    simpa using this
  · simp at hx

theorem scheme_props (u : List Char) (h : (splitScheme u).1 ≠ []) :
    (∀ x ∈ (splitScheme u).1, isSchemeChar x = true) ∧
    pyLower (splitScheme u).1 = (splitScheme u).1 ∧
    (∃ c rest, (splitScheme u).1 = c :: rest ∧ isAlphaChar c = true) := by
  simp only [splitScheme] at h ⊢
  split_ifs at h ⊢ with hc
  · obtain ⟨hpre, _, halpha, hall⟩ := hc
    obtain ⟨c, pre', hpe⟩ := List.exists_cons_of_ne_nil hpre
    refine ⟨?_, ?_, ?_⟩
    · intro x hx
      simp only [pyLower, List.mem_map] at hx
      obtain ⟨y, hy, hxy⟩ := hx
      exact hxy ▸ lowerChar_schemeChar ((List.all_eq_true.1 hall) y hy)
    · simp only [pyLower, List.map_map]
      exact List.map_congr_left (fun x _ => lowerChar_idem x)
    · refine ⟨lowerChar c, pyLower pre', ?_, ?_⟩
      · rw [hpe]
        rfl
      · rw [hpe] at halpha
        exact lowerChar_alpha halpha
  · exact absurd rfl h

theorem splitScheme_reparse (s X : List Char)
    (hne : ∃ c rest, s = c :: rest ∧ isAlphaChar c = true)
    (hall : ∀ x ∈ s, isSchemeChar x = true)
    (hlow : pyLower s = s) :
    splitScheme (s ++ ':' :: '/' :: '/' :: X) = (s, '/' :: '/' :: X) := by
  obtain ⟨c, rest, hsc, hca⟩ := hne
  have hcolon : ∀ x ∈ s, (fun x => decide (x ≠ ':')) x = true :=
    fun x hx => by simpa using schemeChar_ne_colon (hall x hx)
  have htw : (s ++ ':' :: '/' :: '/' :: X).takeWhile (fun x => x ≠ ':') = s :=
    takeWhile_append_cons _ s ':' _ hcolon (by simp)
  have hdw : (s ++ ':' :: '/' :: '/' :: X).dropWhile (fun x => x ≠ ':') =
      ':' :: '/' :: '/' :: X :=
    dropWhile_append_cons _ s ':' _ hcolon (by simp)
  simp only [splitScheme, htw, hdw]
  rw [if_pos]
  · rw [hlow]
    rfl
  · refine ⟨by simp [hsc], by simp, ?_, ?_⟩
    · rw [hsc]
      simpa using hca
    · rw [List.all_eq_true]
      exact fun x hx => hall x hx

theorem normalize_key_reparse (s n p : List Char)
    (hne : ∃ c rest, s = c :: rest ∧ isAlphaChar c = true)
    (hall : ∀ x ∈ s, isSchemeChar x = true)
    (hlow : pyLower s = s)
    (hX : ∀ x ∈ n ++ p, x ≠ '#' ∧ x ≠ '?') :
    normalize_key (s ++ sepSlashes ++ n ++ p) = s ++ sepSlashes ++ n ++ p := by
  have h2 : s ++ sepSlashes ++ n ++ p = s ++ ':' :: '/' :: '/' :: (n ++ p) := by
    simp [sepSlashes]
  rw [h2]
  have hw_ne : s ++ ':' :: '/' :: '/' :: (n ++ p) ≠ [] := by simp
  have hsch := splitScheme_reparse s (n ++ p) hne hall hlow
  have hdropm : ∀ x ∈ (n ++ p).dropWhile (fun c => !isNetlocDelim c),
      x ≠ '#' ∧ x ≠ '?' :=
    fun x hx => hX x ((List.dropWhile_sublist _).subset hx)
  have hfrag := splitOnceAt_of_not_mem '#'
    ((n ++ p).dropWhile (fun c => !isNetlocDelim c))
    (fun x hx => (hdropm x hx).1)
  have hquery := splitOnceAt_of_not_mem '?'
    ((n ++ p).dropWhile (fun c => !isNetlocDelim c))
    (fun x hx => (hdropm x hx).2)
  simp only [normalize_key]
  rw [if_neg hw_ne]
  simp only [urlparse, hsch]
  have hnet2 : splitNetloc ('/' :: '/' :: (n ++ p)) =
      ((n ++ p).takeWhile (fun c => !isNetlocDelim c),
       (n ++ p).dropWhile (fun c => !isNetlocDelim c)) := rfl
  simp only [hnet2, hfrag, hquery]
  simp only [sepSlashes, List.append_assoc, List.cons_append, List.nil_append,
    List.takeWhile_append_dropWhile]

theorem normalize_key_idem_of_scheme (u : List Char)
    (h : (urlparse u).scheme ≠ []) :
    normalize_key (normalize_key u) = normalize_key u := by
  have hu_ne : u ≠ [] := by
    intro he
    rw [he] at h
    exact h rfl
  obtain ⟨hall, hlow, hne⟩ := scheme_props u h
  have h1 : normalize_key u = (urlparse u).scheme ++ sepSlashes ++
      (urlparse u).netloc ++ (urlparse u).path := by
    simp only [normalize_key]
    rw [if_neg hu_ne]
  have hnP : ∀ x ∈ (urlparse u).netloc, isNetlocDelim x = false :=
    splitNetloc_fst_mem ((splitScheme u).2)
  have hpP : ∀ x ∈ (urlparse u).path, x ≠ '#' ∧ x ≠ '?' := by
    intro x hx
    have hx1 := splitOnceAt_fst_mem '?'
      (splitOnceAt '#' (splitNetloc (splitScheme u).2).2).1 x hx
    have hx2 := splitOnceAt_fst_mem '#'
      (splitNetloc (splitScheme u).2).2 x hx1.2
    exact ⟨hx2.1, hx1.1⟩
  have hX : ∀ x ∈ (urlparse u).netloc ++ (urlparse u).path,
      x ≠ '#' ∧ x ≠ '?' := by
    intro x hx
    rcases List.mem_append.1 hx with hxn | hxp
    · have hd := hnP x hxn
      simp only [isNetlocDelim, Bool.or_eq_false_iff, beq_eq_false_iff_ne] at hd
      exact ⟨hd.2, hd.1.2⟩
    · exact hpP x hxp
  rw [h1]
  exact normalize_key_reparse _ _ _ hne hall hlow hX

/-- C6 counterexample.  `normalize_key` is not idempotent on every string:
on the scheme-less `"abc"` it yields `"://abc"`, and a second application
yields `"://://abc"`. -/
theorem C6_normalize_key_cex :
    normalize_key (normalize_key abcLit) ≠ normalize_key abcLit := by
  decide

/-- C6 (amended).  `normalize_key` keeps scheme, host and path and strips
query and fragment, and it is idempotent on every string whose parse has a
non-empty scheme — in particular on every `http(s)` URL.  (On scheme-less
strings it prepends `"://"` and is not idempotent.) -/
theorem C6_normalize_key_spec :
    (∀ u : List Char, (urlparse u).scheme ≠ [] →
      normalize_key (normalize_key u) = normalize_key u) ∧
    normalize_key httpsFullLit = httpsStrippedLit ∧
    normalize_key httpsStrippedLit = httpsStrippedLit :=
  ⟨normalize_key_idem_of_scheme, by decide, by decide⟩

/-- Closed instance of `C6_normalize_key_spec`: idempotence at a URL with
query and fragment. -/
theorem C6_normalize_key_witness :
    normalize_key (normalize_key httpsFullLit) = normalize_key httpsFullLit :=
  C6_normalize_key_spec.1 httpsFullLit (by decide)

/-! ### C7: the response cache (`NetCaptor`) -/

theorem lookupKey_dictInsert_self (k : List Char) (v : List Nat × List Char)
    (l : List (List Char × (List Nat × List Char))) :
    lookupKey k (dictInsert k v l) = some v := by
  induction l with
  | nil => simp [dictInsert, lookupKey]
  | cons hd tl ih =>
    obtain ⟨k', v'⟩ := hd
    by_cases he : k = k'
    · simp [dictInsert, he, lookupKey]
    · simp only [dictInsert, if_neg he, lookupKey]
      exact ih

theorem consumeCheck_some_key (st : CaptorState) (r : NetResponse)
    (w : PendingWrite) (h : consumeCheck st r = some w) :
    w = ⟨normalize_key r.url, r.body, infer_ext r.url r.contentType⟩ := by
  simp only [consumeCheck] at h
  split_ifs at h
  all_goals first
    | exact Option.noConfusion h
    | exact (Option.some.inj h).symm

theorem consume_of_has (st : CaptorState) (r : NetResponse)
    (h : st.has (normalize_key r.url) = true) : st.consume r = st := by
  have hl : (lookupKey (normalize_key r.url) st.data).isSome = true := h
  have hc : consumeCheck st r = none := by
    simp only [consumeCheck, hl]
    split_ifs <;> rfl
  simp [CaptorState.consume, hc]

/-- C7 counterexample.  The claim's "a later response for the same canonical
key never overwrites the stored bytes (append-only, first response wins)"
is not a guarantee of the program: `_consume` awaits `resp.body()` between
its `key in self._data` check and its write, and `handler` spawns each
`_consume` as a concurrent `asyncio.create_task`, so two same-key responses
can both pass the check against the pre-write state; the later write then
overwrites the stored bytes and appends the key to the order list a second
time.  Concretely, from the empty cache both checks pass, and the
interleaved schedule ends with the second response's body stored. -/
theorem C7_netcaptor_cex :
    consumeCheck CaptorState.empty exResponse1 =
      some ⟨exImgKeyLit, exResponse1.body, extJpgLit⟩ ∧
    consumeCheck CaptorState.empty exResponse2 =
      some ⟨exImgKeyLit, exResponse2.body, extJpgLit⟩ ∧
    (applyWrite (applyWrite CaptorState.empty
          ⟨exImgKeyLit, exResponse1.body, extJpgLit⟩)
        ⟨exImgKeyLit, exResponse2.body, extJpgLit⟩).take exImgKeyLit =
      some (exResponse2.body, extJpgLit) ∧
    exResponse2.body ≠ exResponse1.body ∧
    (applyWrite (applyWrite CaptorState.empty
          ⟨exImgKeyLit, exResponse1.body, extJpgLit⟩)
        ⟨exImgKeyLit, exResponse2.body, extJpgLit⟩).order =
      [exImgKeyLit, exImgKeyLit] := by
  decide

/-- C7 (amended).  When the capture handler observes a response whose
content type is an image type or whose URL has a recognized image
extension: the cache reports the canonical key `normalize_key(X)` present,
and when the key was new `take` returns that response's body with the
inferred extension; a later response for the same canonical key leaves the
cache unchanged — first response wins — provided the check and write
phases of the `_consume` runs do not interleave.  When they do interleave
(possible, since `_consume` awaits the body between its duplicate check
and its write and runs as a concurrent task), two same-key responses can
both pass the check and the later write overwrites the stored bytes. -/
theorem C7_netcaptor_spec (st : CaptorState) (r : NetResponse)
    (hk : normalize_key r.url ≠ [])
    (him : containsSub imageSlashLit (pyLower r.contentType) = true ∨
      (imgExtSearch r.url).isSome = true) :
    ((st.consume r).has (normalize_key r.url) = true) ∧
    (st.has (normalize_key r.url) = false →
      (st.consume r).take (normalize_key r.url) =
        some (r.body, infer_ext r.url r.contentType)) ∧
    (∀ r2 : NetResponse, normalize_key r2.url = normalize_key r.url →
      (st.consume r).consume r2 = st.consume r) ∧
    (∀ (r2 : NetResponse) (w w2 : PendingWrite),
      normalize_key r2.url = normalize_key r.url →
      consumeCheck st r = some w → consumeCheck st r2 = some w2 →
      (applyWrite (applyWrite st w) w2).take (normalize_key r.url) =
        some (w2.body, w2.ext)) := by
  have hcond : normalize_key r.url ≠ [] ∧
      (containsSub imageSlashLit (pyLower r.contentType) = true ∨
        (imgExtSearch r.url).isSome = true) := ⟨hk, him⟩
  have hinter : ∀ (r2 : NetResponse) (w w2 : PendingWrite),
      normalize_key r2.url = normalize_key r.url →
      consumeCheck st r = some w → consumeCheck st r2 = some w2 →
      (applyWrite (applyWrite st w) w2).take (normalize_key r.url) =
        some (w2.body, w2.ext) := by
    intro r2 w w2 hkey _ hc2
    have hkw2 : w2.key = normalize_key r.url := by
      rw [consumeCheck_some_key st r2 w2 hc2]
      exact hkey
    simp only [applyWrite, CaptorState.take]
    rw [← hkw2]
    exact lookupKey_dictInsert_self _ _ _
  have hchk : consumeCheck st r =
      (if (lookupKey (normalize_key r.url) st.data).isSome = true then none
       else some ⟨normalize_key r.url, r.body, infer_ext r.url r.contentType⟩) := by
    simp only [consumeCheck]
    rw [if_neg (not_not_intro hcond)]
  by_cases hl : (lookupKey (normalize_key r.url) st.data).isSome = true
  · have heq : st.consume r = st := by
      simp [CaptorState.consume, hchk, hl]
    refine ⟨?_, ?_, ?_, hinter⟩
    · rw [heq]
      exact hl
    · intro hno
      exact absurd hl (by simpa [CaptorState.has] using hno)
    · intro r2 hr2
      rw [heq]
      exact consume_of_has st r2 (by simp only [CaptorState.has, hr2]; exact hl)
  · have hw : consumeCheck st r =
        some ⟨normalize_key r.url, r.body, infer_ext r.url r.contentType⟩ := by
      rw [hchk, if_neg hl]
    have heq : st.consume r = applyWrite st
        ⟨normalize_key r.url, r.body, infer_ext r.url r.contentType⟩ := by
      simp [CaptorState.consume, hw]
    have hhas : (st.consume r).has (normalize_key r.url) = true := by
      rw [heq]
      simp [CaptorState.has, applyWrite, lookupKey_dictInsert_self]
    refine ⟨hhas, fun _ => ?_, ?_, hinter⟩
    · rw [heq]
      simp only [applyWrite, CaptorState.take]
      exact lookupKey_dictInsert_self _ _ _
    · intro r2 hr2
      exact consume_of_has _ r2 (by simp only [CaptorState.has, hr2]; exact hhas)

/-- Closed instance of `C7_netcaptor_spec`: an observed image response is
cached under its canonical key, and a second uninterleaved response for
the same image URL (different query string) does not overwrite it. -/
theorem C7_netcaptor_witness :
    ((CaptorState.empty.consume exResponse1).has exImgKeyLit = true) ∧
    ((CaptorState.empty.consume exResponse1).take exImgKeyLit =
      some (exResponse1.body, extJpgLit)) ∧
    ((CaptorState.empty.consume exResponse1).consume exResponse2 =
      CaptorState.empty.consume exResponse1) := by
  have h := C7_netcaptor_spec CaptorState.empty exResponse1
    (by decide) (Or.inl (by decide))
  refine ⟨?_, ?_, ?_⟩
  · have h1 := h.1
    have hk : normalize_key exResponse1.url = exImgKeyLit := by decide
    rw [hk] at h1
    exact h1
  · have h2 := h.2.1 (by decide)
    have hk : normalize_key exResponse1.url = exImgKeyLit := by decide
    have he : infer_ext exResponse1.url exResponse1.contentType = extJpgLit := by
      decide
    rw [hk, he] at h2
    exact h2
  · exact h.2.2.1 exResponse2 (by decide)

/-! ### C8: the cache is cleared at the start of every attempt -/

theorem runAttempts_trace_empty
    (process : Nat → CaptorState → ChapterOutcome × CaptorState)
    (fb : List Char) :
    ∀ (n attempt : Nat) (last : Option ChapterResult) (st : CaptorState),
      ∀ s ∈ (runAttempts process fb n attempt last st).2.2,
        s = CaptorState.empty := by
  intro n
  induction n with
  | zero =>
    intro attempt last st s hs
    simp [runAttempts] at hs
  | succ n ih =>
    intro attempt last st s hs
    simp only [runAttempts] at hs
    rcases hp : process attempt st.clearAll with ⟨oc, st'⟩
    rw [hp] at hs
    cases oc with
    | raised m =>
      simp only [List.mem_singleton] at hs
      exact hs
    | result r =>
      by_cases hrs : r.success = true
      · simp only [hrs, if_true, List.mem_singleton] at hs
        exact hs
      · simp only [hrs, if_false, Bool.false_eq_true] at hs
        rcases hrec : runAttempts process fb n (attempt + 1) (some r) st' with
          ⟨out, stF, ins⟩
        rw [hrec] at hs
        simp only [List.mem_cons] at hs
        rcases hs with he | hins
        · exact he
        · have := ih (attempt + 1) (some r) st' s
          rw [hrec] at this
          exact this hins

theorem runAttempts_trace_ne_nil
    (process : Nat → CaptorState → ChapterOutcome × CaptorState)
    (fb : List Char) (n attempt : Nat) (last : Option ChapterResult)
    (st : CaptorState) (hn : 1 ≤ n) :
    (runAttempts process fb n attempt last st).2.2 ≠ [] := by
  cases n with
  | zero => omega
  | succ n =>
    simp only [runAttempts]
    rcases hp : process attempt st.clearAll with ⟨oc, st'⟩
    cases oc with
    | raised m => simp
    | result r =>
      by_cases hrs : r.success = true
      · simp [hrs]
      · rcases hrec : runAttempts process fb n (attempt + 1) (some r) st' with
          ⟨out, stF, ins⟩
        simp [hrs, hrec]

/-- C8.  `download_chapter_with_retries` clears the captor (both the
key-to-bytes map and the order list) at the start of every attempt: at
least one attempt runs, and every captor state handed to
`process_one_chapter` is the empty cache — it holds no key and an empty
order list, so no attempt can observe bytes cached by a previous attempt
of the same or an earlier chapter. -/
theorem C8_cache_cleared_each_attempt
    (process : Nat → CaptorState → ChapterOutcome × CaptorState)
    (fb : List Char) (retries : Nat) (st : CaptorState) :
    (download_chapter_with_retries process fb retries st).2.2 ≠ [] ∧
    ∀ s ∈ (download_chapter_with_retries process fb retries st).2.2,
      s.data = [] ∧ s.order = [] ∧ ∀ key, s.has key = false := by
  constructor
  · exact runAttempts_trace_ne_nil process fb (max 1 retries) 1 none st
      (le_max_left 1 retries)
  · intro s hs
    have he := runAttempts_trace_empty process fb (max 1 retries) 1 none st s hs
    subst he
    exact ⟨rfl, rfl, fun key => rfl⟩

/-- Closed instance of `C8_cache_cleared_each_attempt`: starting from a
dirty captor, the state handed to every attempt is the empty cache. -/
theorem C8_cache_cleared_witness :
    CaptorState.empty.data = [] ∧ CaptorState.empty.order = [] ∧
    CaptorState.empty.has exImgKeyLit = false := by
  have h := (C8_cache_cleared_each_attempt exFailingProcess chap1Lit 3
    exDirtyState).2 CaptorState.empty (by decide)
  exact ⟨h.1, h.2.1, h.2.2 exImgKeyLit⟩

/-! ### C2: `run_download_job` aggregation and exception propagation -/

theorem runAttempts_ok
    (process : Nat → CaptorState → ChapterOutcome × CaptorState)
    (hnr : ∀ a st, ∃ r st', process a st = (ChapterOutcome.result r, st'))
    (fb : List Char) :
    ∀ (n attempt : Nat) (last : Option ChapterResult) (st : CaptorState),
      ∃ r stF tr, runAttempts process fb n attempt last st =
        (Except.ok r, stF, tr) := by
  intro n
  induction n with
  | zero =>
    intro attempt last st
    exact ⟨_, _, _, rfl⟩
  | succ n ih =>
    intro attempt last st
    obtain ⟨r, st', hp⟩ := hnr attempt st.clearAll
    by_cases hrs : r.success = true
    · refine ⟨r, st', [st.clearAll], ?_⟩
      simp only [runAttempts, hp, hrs, if_true]
    · obtain ⟨r2, stF, tr, hrec⟩ := ih (attempt + 1) (some r) st'
      refine ⟨r2, stF, st.clearAll :: tr, ?_⟩
      simp only [runAttempts, hp, hrs, if_false, Bool.false_eq_true, hrec]

theorem runChapters_ok
    (process : Nat → Nat → CaptorState → ChapterOutcome × CaptorState)
    (hnr : ∀ i a st, ∃ r st', process i a st = (ChapterOutcome.result r, st'))
    (retries : Nat) :
    ∀ (chapters : List (List Char)) (i : Nat) (st : CaptorState),
      ∃ rs, runChapters process retries i chapters st = Except.ok rs ∧
        rs.length = chapters.length := by
  intro chapters
  induction chapters with
  | nil =>
    intro i st
    exact ⟨[], rfl, rfl⟩
  | cons c cs ih =>
    intro i st
    obtain ⟨r, stF, tr, hd⟩ := runAttempts_ok (process i) (hnr i) c
      (max 1 retries) 1 none st
    obtain ⟨rs, hrec, hlen⟩ := ih (i + 1) stF
    refine ⟨r :: rs, ?_, by simp [hlen]⟩
    simp only [runChapters, download_chapter_with_retries, hd, hrec]

theorem runAttempts_allfail
    (process : Nat → CaptorState → ChapterOutcome × CaptorState)
    (fb : List Char)
    (hfail : ∀ a st, ∃ r st', process a st = (ChapterOutcome.result r, st') ∧
      r.success = false) :
    ∀ (n attempt : Nat) (last : Option ChapterResult) (st : CaptorState),
      1 ≤ n →
      ∃ r stF tr, runAttempts process fb n attempt last st =
          (Except.ok r, stF, tr) ∧
        r.success = false ∧
        ∃ stIn stOut, process (attempt + (n - 1)) stIn =
          (ChapterOutcome.result r, stOut) := by
  intro n
  induction n with
  | zero =>
    intro _ _ _ h
    omega
  | succ n ih =>
    intro attempt last st _
    obtain ⟨r, st', hp, hrs⟩ := hfail attempt st.clearAll
    by_cases hn : 1 ≤ n
    · obtain ⟨r2, stF, tr, hrec, hrs2, stIn, stOut, hproc⟩ :=
        ih (attempt + 1) (some r) st' hn
      refine ⟨r2, stF, st.clearAll :: tr, ?_, hrs2, stIn, stOut, ?_⟩
      · simp only [runAttempts, hp, hrs, if_false, Bool.false_eq_true, hrec]
      · have harith : attempt + 1 + (n - 1) = attempt + (n + 1 - 1) := by omega
        rw [← harith]
        exact hproc
    · have hn0 : n = 0 := by omega
      subst hn0
      refine ⟨r, st', [st.clearAll], ?_, hrs, st.clearAll, st', by simpa using hp⟩
      simp only [runAttempts, hp, hrs, if_false, Bool.false_eq_true]

/-- C2 counterexample.  The claim fails on the code: `process_one_chapter`
has no enclosing `try/except` (`page.goto`, `img2pdf.convert`, … raise out
of it; the chat front end even wraps `run_download_job` in `try/except`),
and neither `download_chapter_with_retries` nor the batch loop catches, so
one raising chapter makes `run_download_job` raise instead of returning a
complete two-result list, and chapter 2 is never attempted. -/
theorem C2_run_download_job_cex :
    run_download_job exRaisingProcess [chap1Lit, chap2Lit] 3 =
      Except.error boomMsg ∧
    (∀ rs : List ChapterResult,
      run_download_job exRaisingProcess [chap1Lit, chap2Lit] 3 ≠
        Except.ok rs) := by
  have h1 : run_download_job exRaisingProcess [chap1Lit, chap2Lit] 3 =
      Except.error boomMsg := rfl
  refine ⟨h1, ?_⟩
  intro rs hc
  rw [h1] at hc
  exact Except.noConfusion hc

/-- C2 (amended).  Provided every attempt of every chapter returns a
`ChapterResult` rather than raising, `run_download_job` returns a complete
ordered result list, one entry per resolved chapter URL; and when every
attempt of a chapter fails, the kept result is the last attempt's failure
(the synthetic `Retries exhausted.` result is the `last is None` fallback,
unreachable when every attempt returns).  An exception escaping
`process_one_chapter`, however, propagates and aborts the batch. -/
theorem C2_run_download_job_spec :
    (∀ (process : Nat → Nat → CaptorState → ChapterOutcome × CaptorState),
      (∀ i a st, ∃ r st', process i a st = (ChapterOutcome.result r, st')) →
      ∀ (chapters : List (List Char)) (retries : Nat),
        ∃ rs, run_download_job process chapters retries = Except.ok rs ∧
          rs.length = chapters.length) ∧
    (∀ (procC : Nat → CaptorState → ChapterOutcome × CaptorState)
       (fb : List Char) (retries : Nat) (st : CaptorState),
      (∀ a stIn, ∃ r stOut, procC a stIn = (ChapterOutcome.result r, stOut) ∧
        r.success = false) →
      ∃ r stF tr, download_chapter_with_retries procC fb retries st =
          (Except.ok r, stF, tr) ∧
        r.success = false ∧
        ∃ stIn stOut, procC (max 1 retries) stIn =
          (ChapterOutcome.result r, stOut)) := by
  constructor
  · intro process hnr chapters retries
    exact runChapters_ok process hnr retries chapters 0 CaptorState.empty
  · intro procC fb retries st hfail
    have h := runAttempts_allfail procC fb hfail (max 1 retries) 1 none st
      (le_max_left 1 retries)
    obtain ⟨r, stF, tr, heq, hrs, stIn, stOut, hproc⟩ := h
    refine ⟨r, stF, tr, heq, hrs, stIn, stOut, ?_⟩
    have harith : 1 + (max 1 retries - 1) = max 1 retries := by omega
    rw [harith] at hproc
    exact hproc

/-- Closed instance of `C2_run_download_job_spec`: a two-chapter batch whose
every attempt fails still yields a complete two-result list, and the kept
per-chapter result is the final attempt's. -/
theorem C2_run_download_job_witness :
    (∃ rs, run_download_job exFailingProcess2 [chap1Lit, chap2Lit] 3 =
        Except.ok rs ∧ rs.length = 2) ∧
    (∃ r stF tr,
      download_chapter_with_retries exFailingProcess chap1Lit 3
          CaptorState.empty = (Except.ok r, stF, tr) ∧
        r.success = false ∧
        ∃ stIn stOut, exFailingProcess (max 1 3) stIn =
          (ChapterOutcome.result r, stOut)) := by
  constructor
  · have h := C2_run_download_job_spec.1 exFailingProcess2
      (fun i a st => ⟨_, _, rfl⟩) [chap1Lit, chap2Lit] 3
    simpa using h
  · exact C2_run_download_job_spec.2 exFailingProcess chap1Lit 3
      CaptorState.empty (fun a stIn => ⟨_, _, rfl, rfl⟩)

/-! ### C4: redirect inspection by the traffic filter -/

theorem marker_in_placeholder (o d : List Char) :
    containsSub redirectBlockedMarker (placeholderBody o d) = true := by
  unfold placeholderBody
  apply containsSub_append_right
  decide

/-- C4.  For a navigation request whose manually fetched response has a 3xx
status: when the redirect destination's host is blocklisted (by host
pattern or IP) the filter fulfills the synthesized placeholder whose body
embeds the machine-detectable `window._redirect_blocked` marker, leaving
the allowed set unchanged; when it is not blocklisted the destination host
is added to the context's allowed-host set — but the handler takes no
action on the route (the source `return`s without fulfilling or
continuing, so the redirect is not actually followed). -/
theorem C4_redirect_inspection (blockHost blockIp : List Char → Bool)
    (urljoinF : List Char → List Char → List Char)
    (allowed : List (List Char)) (requestUrl : List Char) (status : Nat)
    (location : List Char) (h3 : 300 ≤ status ∧ status < 400) :
    (_host_from_url (navDestUrl urljoinF location requestUrl) ≠ [] ∧
      (blockHost (_host_from_url (navDestUrl urljoinF location requestUrl)) = true ∨
       blockIp (_host_from_url (navDestUrl urljoinF location requestUrl)) = true) →
      handleNavResponse blockHost blockIp urljoinF allowed requestUrl status
          location =
        (RouteAction.fulfillPlaceholder
          (placeholderBody requestUrl (navDestUrl urljoinF location requestUrl)),
         allowed) ∧
      containsSub redirectBlockedMarker
        (placeholderBody requestUrl (navDestUrl urljoinF location requestUrl)) =
        true) ∧
    (_host_from_url (navDestUrl urljoinF location requestUrl) ≠ [] ∧
      blockHost (_host_from_url (navDestUrl urljoinF location requestUrl)) = false ∧
      blockIp (_host_from_url (navDestUrl urljoinF location requestUrl)) = false ∧
      _host_from_url (navDestUrl urljoinF location requestUrl) ∉ allowed →
      handleNavResponse blockHost blockIp urljoinF allowed requestUrl status
          location =
        (RouteAction.noAction,
         _host_from_url (navDestUrl urljoinF location requestUrl) :: allowed)) := by
  constructor
  · rintro ⟨hne, hblk⟩
    refine ⟨?_, marker_in_placeholder _ _⟩
    simp only [handleNavResponse]
    rw [if_pos h3]
    by_cases hbh : blockHost (_host_from_url (navDestUrl urljoinF location requestUrl)) = true
    · rw [if_pos ⟨hne, hbh⟩]
    · have hip : blockIp (_host_from_url (navDestUrl urljoinF location requestUrl)) = true := by
        rcases hblk with hb | hi
        · exact absurd hb hbh
        · exact hi
      rw [if_neg (by simp [hbh]), if_pos ⟨hne, hip⟩]
  · rintro ⟨hne, hbh, hip, hmem⟩
    simp only [handleNavResponse]
    rw [if_pos h3, if_neg (by simp [hbh]), if_neg (by simp [hip]),
      if_pos ⟨hne, hmem⟩]

/-- Closed instance of `C4_redirect_inspection` at the two concrete inputs:
a 302 redirect to the blocklisted `bad.example` is answered with the
marker-bearing placeholder, and a 302 redirect to the non-blocklisted
`b.example` adds `b.example` to the allowed set while resolving the route
with no action (the navigation is left unhandled — the divergence from the
spec's "otherwise allow it"). -/
theorem C4_redirect_inspection_witness :
    (handleNavResponse exBlockHost exNoBlock exUrljoin [] reqUrlLit 302
        badDestUrlLit =
      (RouteAction.fulfillPlaceholder
        (placeholderBody reqUrlLit (navDestUrl exUrljoin badDestUrlLit reqUrlLit)),
       []) ∧
     containsSub redirectBlockedMarker
       (placeholderBody reqUrlLit (navDestUrl exUrljoin badDestUrlLit reqUrlLit)) =
       true) ∧
    handleNavResponse exNoBlock exNoBlock exUrljoin [] reqUrlLit 302
        destUrlLit =
      (RouteAction.noAction, [destHostLit]) := by
  constructor
  · exact (C4_redirect_inspection exBlockHost exNoBlock exUrljoin []
      reqUrlLit 302 badDestUrlLit (by omega)).1 ⟨by decide, Or.inl (by decide)⟩
  · have h := (C4_redirect_inspection exNoBlock exNoBlock exUrljoin []
      reqUrlLit 302 destUrlLit (by omega)).2 ⟨by decide, rfl, rfl, by decide⟩
    have he : _host_from_url (navDestUrl exUrljoin destUrlLit reqUrlLit) =
        destHostLit := by decide
    rw [he] at h
    exact h

end Verman2
